import Mathlib

/-!
Verification development for the triplicata smart-cube macro tool.

The development shallowly embeds the core of the Rust sources:

* src/cube.rs — the GAN v2 packet cipher (struct GANCubeVersion2Cipher with
  its decrypt/encrypt methods), the key/IV derivation performed in
  move_stream_v2, the bit extractor extract_bits, and the move-message
  decoding loop of move_stream_v2;
* src/state_machine.rs — the trigger-matching state machine (StateMachine
  with reset, get_tentative_bind, play_bind and push_move);
* src/config.rs — the configuration data model (Bind, Config, Action).

Byte buffers are embedded as List Nat (each element a byte value); u8/u16
arithmetic from the source is carried out on Nat with the wraparound made
explicit where the source relies on it.  Rust Result/panic outcomes are
embedded as Option: none models the error (or panic) outcome.

The AES-128 block primitive used by the cipher comes from the external aes
crate, so it is not part of this repository; the cipher embedding is
parameterised by the two block maps (encBlock, decBlock) that
Aes128::new(device_key) provides, and theorems about the cipher assume only
the block-cipher facts the aes crate guarantees (the maps are mutually
inverse, length-preserving maps on 16-byte blocks).
-/

/-- Byte-wise XOR of a block with the device IV, truncating to the shorter
list; models the loops of the form block[i] ^= self.device_iv[i]. -/
def xorIV (iv block : List Nat) : List Nat :=
  List.zipWith (fun a b => a ^^^ b) block iv

/-- Write the list repl into buf starting at position off, models the
in-place loops value[off + i] = repl[i] of cube.rs. -/
def setSlice (buf : List Nat) (off : Nat) (repl : List Nat) : List Nat :=
  buf.take off ++ repl ++ buf.drop (off + repl.length)

/-- Embedding of struct GANCubeVersion2Cipher of src/cube.rs.  The field
device_key of the source is only ever consumed by Aes128::new, so the
embedding stores the resulting AES-128 block maps (encBlock for
encrypt_block, decBlock for decrypt_block) instead of the raw key bytes. -/
structure GANCubeVersion2Cipher where
  encBlock : List Nat → List Nat
  decBlock : List Nat → List Nat
  device_iv : List Nat

/-- Embedding of GANCubeVersion2Cipher::decrypt of src/cube.rs: first the
last 16 bytes are block-decrypted and XORed with the IV in place, then the
first 16 bytes of the (possibly already modified, overlapping) buffer are
block-decrypted and XORed with the IV in place.  none models the
bail!("Packet size less than expected length") error path. -/
def GANCubeVersion2Cipher.decrypt (c : GANCubeVersion2Cipher) (v : List Nat) :
    Option (List Nat) :=
  if v.length ≤ 16 then none
  else
    let offset := v.length - 16
    let end_plain := xorIV c.device_iv (c.decBlock (v.drop offset))
    let v1 := setSlice v offset end_plain
    let start_plain := xorIV c.device_iv (c.decBlock (v1.take 16))
    some (setSlice v1 0 start_plain)

/-- Embedding of GANCubeVersion2Cipher::encrypt of src/cube.rs: the first 16
bytes are XORed with the IV and block-encrypted in place, then the last 16
bytes of the (possibly already modified, overlapping) buffer are XORed with
the IV and block-encrypted in place.  none models the
bail!("Packet size less than expected length") error path. -/
def GANCubeVersion2Cipher.encrypt (c : GANCubeVersion2Cipher) (v : List Nat) :
    Option (List Nat) :=
  if v.length ≤ 16 then none
  else
    let v1 := setSlice v 0 (c.encBlock (xorIV c.device_iv (v.take 16)))
    let offset := v1.length - 16
    some (setSlice v1 offset (c.encBlock (xorIV c.device_iv (v1.drop offset))))

lemma xorIV_length (iv block : List Nat) :
    (xorIV iv block).length = min block.length iv.length := by
  simp [xorIV]

lemma xorIV_xorIV (iv : List Nat) :
    ∀ block : List Nat, block.length ≤ iv.length →
      xorIV iv (xorIV iv block) = block := by
  induction iv with
  | nil =>
    intro block hb
    have : block = [] := List.eq_nil_of_length_eq_zero (Nat.le_zero.mp (by simpa using hb))
    simp [this, xorIV]
  | cons i iv ih =>
    intro block hb
    cases block with
    | nil => simp [xorIV]
    | cons a rest =>
      have hr : rest.length ≤ iv.length := by simpa using hb
      have := ih rest hr
      simp only [xorIV, List.zipWith_cons_cons] at this ⊢
      refine congrArg₂ (· :: ·) ?_ this
      exact Nat.xor_cancel_right i a

lemma setSlice_length (buf repl : List Nat) (off : Nat)
    (h : off + repl.length ≤ buf.length) :
    (setSlice buf off repl).length = buf.length := by
  simp only [setSlice, List.length_append, List.length_take, List.length_drop]
  omega

/-- C8: decrypt and encrypt return an error exactly when the packet length is
at most 16 bytes, and succeed for every input of length 17 or more; the
length test happens before any output is assembled, so the error path
produces no partial result (the Option is none with no payload). -/
theorem cipher_short_packet_iff (c : GANCubeVersion2Cipher) (v : List Nat) :
    ((c.decrypt v).isSome ↔ 16 < v.length) ∧
      ((c.encrypt v).isSome ↔ 16 < v.length) := by
  by_cases h : v.length ≤ 16 <;>
    simp [GANCubeVersion2Cipher.decrypt, GANCubeVersion2Cipher.encrypt, h] <;>
    omega

/-- C1: for any block maps that are mutually inverse, length-preserving maps
on 16-byte blocks (as AES-128 under the fixed device key is), and any buffer
longer than 16 bytes — including 16 < length ≤ 32, where the first and last
16-byte windows overlap — decrypting the encryption returns the original
buffer. -/
theorem decrypt_encrypt_roundtrip (c : GANCubeVersion2Cipher) (v : List Nat)
    (hiv : c.device_iv.length = 16)
    (hlen : ∀ b : List Nat, b.length = 16 → (c.encBlock b).length = 16)
    (hinv : ∀ b : List Nat, b.length = 16 → c.decBlock (c.encBlock b) = b)
    (hv : 16 < v.length) :
    (c.encrypt v).bind c.decrypt = some v := by
  have hnot : ¬ v.length ≤ 16 := by omega
  set L := v.length with hL
  have htake16 : (v.take 16).length = 16 := by
    rw [List.length_take]; omega
  have hxA : (xorIV c.device_iv (v.take 16)).length = 16 := by
    rw [xorIV_length, htake16, hiv]; exact Nat.min_self 16
  set A := c.encBlock (xorIV c.device_iv (v.take 16)) with hAdef
  have hA : A.length = 16 := hlen _ hxA
  have he1 : setSlice v 0 A = A ++ v.drop 16 := by
    simp [setSlice, hA]
  have he1len : (A ++ v.drop 16).length = L := by
    simp only [List.length_append, List.length_drop, hA]; omega
  have hdroplen : ((A ++ v.drop 16).drop (L - 16)).length = 16 := by
    rw [List.length_drop, he1len]; omega
  have hxB : (xorIV c.device_iv ((A ++ v.drop 16).drop (L - 16))).length = 16 := by
    rw [xorIV_length, hdroplen, hiv]; exact Nat.min_self 16
  set B := c.encBlock (xorIV c.device_iv ((A ++ v.drop 16).drop (L - 16))) with hBdef
  have hB : B.length = 16 := hlen _ hxB
  have henc : c.encrypt v = some (setSlice (A ++ v.drop 16) (L - 16) B) := by
    simp only [GANCubeVersion2Cipher.encrypt, if_neg hnot, ← hL]
    rw [← hAdef, he1, he1len, ← hBdef]
  have he2 : setSlice (A ++ v.drop 16) (L - 16) B =
      (A ++ v.drop 16).take (L - 16) ++ B := by
    simp only [setSlice, hB]
    have hnil : (A ++ v.drop 16).drop (L - 16 + 16) = [] :=
      List.drop_eq_nil_of_le (by rw [he1len]; omega)
    rw [hnil, List.append_nil]
  have htakelen : ((A ++ v.drop 16).take (L - 16)).length = L - 16 := by
    rw [List.length_take, he1len]; omega
  have he2len : ((A ++ v.drop 16).take (L - 16) ++ B).length = L := by
    rw [List.length_append, htakelen, hB]; omega
  have hnot2 : ¬ ((A ++ v.drop 16).take (L - 16) ++ B).length ≤ 16 := by
    rw [he2len]; omega
  have hdropB : ((A ++ v.drop 16).take (L - 16) ++ B).drop (L - 16) = B :=
    List.drop_left' htakelen
  have hEnd : xorIV c.device_iv (c.decBlock B) = (A ++ v.drop 16).drop (L - 16) := by
    rw [hBdef, hinv _ hxB]
    exact xorIV_xorIV _ _ (by rw [hdroplen, hiv])
  have hd1 : setSlice ((A ++ v.drop 16).take (L - 16) ++ B) (L - 16)
      ((A ++ v.drop 16).drop (L - 16)) = A ++ v.drop 16 := by
    simp only [setSlice, hdroplen]
    rw [List.take_left' htakelen]
    have hnil : ((A ++ v.drop 16).take (L - 16) ++ B).drop (L - 16 + 16) = [] :=
      List.drop_eq_nil_of_le (by rw [he2len]; omega)
    rw [hnil, List.append_nil, List.take_append_drop]
  have hStart : xorIV c.device_iv (c.decBlock A) = v.take 16 := by
    rw [hAdef, hinv _ hxA]
    exact xorIV_xorIV _ _ (by rw [htake16, hiv])
  have hres : setSlice (A ++ v.drop 16) 0 (v.take 16) = v := by
    simp only [setSlice, List.take_zero, List.nil_append, Nat.zero_add, htake16]
    rw [List.drop_left' hA]
    exact List.take_append_drop 16 v
  rw [henc, Option.some_bind, he2]
  simp only [GANCubeVersion2Cipher.decrypt, if_neg hnot2, he2len, hdropB, hEnd, hd1,
    List.take_left' hA, hStart, hres]
  rw [if_neg hnot]

/-- Witness for C1: a concrete 17-byte buffer (overlapping-window case)
round-trips under concrete block maps and a concrete IV. -/
theorem decrypt_encrypt_roundtrip_witness :
    (GANCubeVersion2Cipher.encrypt ⟨id, id, List.replicate 16 7⟩
        (List.replicate 17 5)).bind
      (GANCubeVersion2Cipher.decrypt ⟨id, id, List.replicate 16 7⟩) =
      some (List.replicate 17 5) :=
  decrypt_encrypt_roundtrip ⟨id, id, List.replicate 16 7⟩ (List.replicate 17 5)
    (by simp) (fun b hb => hb) (fun b hb => rfl) (by simp)

/-- C9: when decrypt succeeds on a packet longer than 32 bytes, every byte
strictly between the first and last 16-byte windows (indices in
[16, length - 16)) of the output equals the corresponding input byte: those
interior bytes remain ciphertext. -/
theorem decrypt_interior_untouched (c : GANCubeVersion2Cipher) (v w : List Nat)
    (i : Nat)
    (hiv : c.device_iv.length = 16)
    (hdec : ∀ b : List Nat, b.length = 16 → (c.decBlock b).length = 16)
    (hL : 32 < v.length)
    (hw : c.decrypt v = some w)
    (h16 : 16 ≤ i) (hi : i < v.length - 16) :
    w[i]? = v[i]? := by
  have hnot : ¬ v.length ≤ 16 := by omega
  set L := v.length with hL'
  have hdroplen : (v.drop (L - 16)).length = 16 := by
    rw [List.length_drop]; omega
  have hE : (xorIV c.device_iv (c.decBlock (v.drop (L - 16)))).length = 16 := by
    rw [xorIV_length, hdec _ hdroplen, hiv]; exact Nat.min_self 16
  set E := xorIV c.device_iv (c.decBlock (v.drop (L - 16))) with hEdef
  have htakelen : (v.take (L - 16)).length = L - 16 := by
    rw [List.length_take]; omega
  have hv1 : setSlice v (L - 16) E = v.take (L - 16) ++ E := by
    simp only [setSlice, hE]
    have hnil : v.drop (L - 16 + 16) = [] :=
      List.drop_eq_nil_of_le (by omega)
    rw [hnil, List.append_nil]
  have hv1len : (v.take (L - 16) ++ E).length = L := by
    rw [List.length_append, htakelen, hE]; omega
  have hv1take : ((v.take (L - 16) ++ E).take 16).length = 16 := by
    rw [List.length_take, hv1len]; omega
  have hS : (xorIV c.device_iv (c.decBlock ((v.take (L - 16) ++ E).take 16))).length
      = 16 := by
    rw [xorIV_length, hdec _ hv1take, hiv]; exact Nat.min_self 16
  set S := xorIV c.device_iv (c.decBlock ((v.take (L - 16) ++ E).take 16)) with hSdef
  have hwval : w = S ++ (v.take (L - 16) ++ E).drop 16 := by
    have := hw
    simp only [GANCubeVersion2Cipher.decrypt, if_neg hnot, ← hL'] at this
    rw [← hEdef, hv1, ← hSdef] at this
    simp only [setSlice, List.take_zero, List.nil_append, Nat.zero_add, hS,
      Option.some.injEq] at this
    exact this.symm
  rw [hwval]
  rw [List.getElem?_append_right (by rw [hS]; omega)]
  rw [hS, List.getElem?_drop]
  have h16i : 16 + (i - 16) = i := by omega
  rw [h16i, List.getElem?_append, if_pos (by rw [htakelen]; omega),
    List.getElem?_take, if_pos (by omega)]

/-- Witness for C9: a concrete 33-byte packet decrypted with concrete block
maps; index 16 (the single interior byte position) is unchanged even though
the surrounding windows change. -/
theorem decrypt_interior_untouched_witness :
    (List.replicate 16 6 ++ 5 :: List.replicate 16 6 : List Nat)[16]? =
      (List.replicate 33 5 : List Nat)[16]? :=
  decrypt_interior_untouched
    ⟨id, fun b => b.map (fun x => x + 1), List.replicate 16 0⟩
    (List.replicate 33 5) (List.replicate 16 6 ++ 5 :: List.replicate 16 6) 16
    (by simp) (fun b hb => by simpa using hb) (by norm_num)
    (by decide) (by norm_num) (by norm_num)

/-- Embedding of enum Move of src/cube.rs (12 face turns). -/
inductive Move where
  | U | Up | R | Rp | F | Fp | D | Dp | L | Lp | B | Bp
deriving DecidableEq, Repr

/-- Embedding of const MOVES of move_stream_v2 in src/cube.rs. -/
def MOVES : List Move :=
  [Move.U, Move.Up, Move.R, Move.Rp, Move.F, Move.Fp,
   Move.D, Move.Dp, Move.L, Move.Lp, Move.B, Move.Bp]

def CUBE_MOVE_MESSAGE : Nat := 2

def CUBE_STATE_MESSAGE : Nat := 4

def CUBE_BATTERY_STATE_MESSAGE : Nat := 9

/-- Embedding of const GAN_V2_KEY of move_stream_v2 in src/cube.rs. -/
def GAN_V2_KEY : List Nat :=
  [0x01, 0x02, 0x42, 0x28, 0x31, 0x91, 0x16, 0x07,
   0x20, 0x05, 0x18, 0x54, 0x42, 0x11, 0x12, 0x53]

/-- Embedding of const GAN_V2_IV of move_stream_v2 in src/cube.rs. -/
def GAN_V2_IV : List Nat :=
  [0x11, 0x03, 0x32, 0x28, 0x21, 0x01, 0x76, 0x27,
   0x20, 0x95, 0x78, 0x14, 0x32, 0x12, 0x02, 0x43]

/-- Embedding of the key/IV derivation loop of move_stream_v2:
for (idx, byte) in device_key.iter().enumerate(),
base[idx] = ((base[idx] as u16 + byte as u16) % 255) as u8.  Both bytes are
below 256, so the u16 sum is exact and the remainder is below 255, making
the final u8 cast exact as well: on Nat the update is (base + byte) % 255. -/
def applyDeviceKey : List Nat → List Nat → Nat → List Nat
  | base, [], _ => base
  | base, byte :: rest, idx =>
    applyDeviceKey (base.set idx ((base.getD idx 0 + byte) % 255)) rest (idx + 1)

/-- The derived (key, iv) pair of move_stream_v2, as a function of the
6-byte device identifier. -/
def derive_key_iv (device_key : List Nat) : List Nat × List Nat :=
  (applyDeviceKey GAN_V2_KEY device_key 0, applyDeviceKey GAN_V2_IV device_key 0)

/-- Loop body of extract_bits of src/cube.rs: bit counts how many bits are
still to be read starting at position bit, acc is the accumulated result.
The source indexes data[bit / 8] with no bounds check and panics when the
index is out of range; none models that panic. -/
def extractBitsGo (data : List Nat) : Nat → Nat → Nat → Option Nat
  | _, 0, acc => some acc
  | bit, n + 1, acc =>
    match data[bit / 8]? with
    | none => none
    | some byte =>
      extractBitsGo data (bit + 1) n
        (2 * acc + if byte &&& (1 <<< (7 - bit % 8)) ≠ 0 then 1 else 0)

/-- Embedding of fn extract_bits of src/cube.rs. -/
def extract_bits (data : List Nat) (start count : Nat) : Option Nat :=
  extractBitsGo data start count 0

/-- Embedding of let move_count = current_move_count - *last on u8 operands
(wrapping two's-complement subtraction): with both operands below 256 this
is (current + 256 - last) % 256 on Nat. -/
def wrapSub (current last : Nat) : Nat :=
  (current + 256 - last) % 256

/-- Embedding of the move-emission loop of move_stream_v2: idxs is the
sequence of values taken by i = (move_count - 1) - j for j = 0, 1, ....
A move code at or above MOVES.len() is skipped (continue); otherwise
MOVES[move_num] is emitted.  none models the extract_bits index panic. -/
def decodeMoveNums (data : List Nat) : List Nat → Option (List Move)
  | [] => some []
  | i :: rest =>
    match extract_bits data (12 + i * 5) 5 with
    | none => none
    | some move_num =>
      if move_num ≥ MOVES.length then decodeMoveNums data rest
      else
        match decodeMoveNums data rest with
        | none => none
        | some ms => some (MOVES.getD move_num Move.U :: ms)

/-- Embedding of the per-notification handling of one decrypted packet in
move_stream_v2 of src/cube.rs: read the 4-bit message type at bit 0; for a
move message read the 8-bit counter at bit 4; with no prior counter only
record the counter; otherwise decode wrapSub-many 5-bit move codes at bit
offsets 12 + i * 5 for i from move_count - 1 down to 0.  The result pairs
the updated last_move_count with the list of moves broadcast, in emission
order; none models a panic from an unchecked out-of-bounds index in
extract_bits (moves already broadcast before such a panic are not
modelled). -/
def handle_packet (value : List Nat) (last_move_count : Option Nat) :
    Option (Option Nat × List Move) :=
  match extract_bits value 0 4 with
  | none => none
  | some message_type =>
    if message_type = CUBE_MOVE_MESSAGE then
      match extract_bits value 4 8 with
      | none => none
      | some current =>
        match last_move_count with
        | none => some (some current, [])
        | some last =>
          let move_count := wrapSub current last
          match decodeMoveNums value ((List.range move_count).reverse) with
          | none => none
          | some ms => some (some current, ms)
    else some (last_move_count, [])

lemma applyDeviceKey_key_eq (a b c d e f : Nat) :
    applyDeviceKey GAN_V2_KEY [a, b, c, d, e, f] 0 =
      (0x01 + a) % 255 :: (0x02 + b) % 255 :: (0x42 + c) % 255 ::
      (0x28 + d) % 255 :: (0x31 + e) % 255 :: (0x91 + f) % 255 ::
      [0x16, 0x07, 0x20, 0x05, 0x18, 0x54, 0x42, 0x11, 0x12, 0x53] := rfl

lemma applyDeviceKey_iv_eq (a b c d e f : Nat) :
    applyDeviceKey GAN_V2_IV [a, b, c, d, e, f] 0 =
      (0x11 + a) % 255 :: (0x03 + b) % 255 :: (0x32 + c) % 255 ::
      (0x28 + d) % 255 :: (0x21 + e) % 255 :: (0x01 + f) % 255 ::
      [0x76, 0x27, 0x20, 0x95, 0x78, 0x14, 0x32, 0x12, 0x02, 0x43] := rfl

/-- C5: key derivation is a function of the 6-byte identifier; for i below 6
the derived key and IV bytes are (constant + identifier byte) mod 255
(modular addition modulo 255), and for i in [6, 16) the vendor constants are
unchanged. -/
theorem derive_key_iv_bytes (a b c d e f i : Nat) :
    (i < 6 →
      (derive_key_iv [a, b, c, d, e, f]).1[i]? =
        some ((GAN_V2_KEY.getD i 0 + [a, b, c, d, e, f].getD i 0) % 255) ∧
      (derive_key_iv [a, b, c, d, e, f]).2[i]? =
        some ((GAN_V2_IV.getD i 0 + [a, b, c, d, e, f].getD i 0) % 255)) ∧
    (6 ≤ i → i < 16 →
      (derive_key_iv [a, b, c, d, e, f]).1[i]? = GAN_V2_KEY[i]? ∧
      (derive_key_iv [a, b, c, d, e, f]).2[i]? = GAN_V2_IV[i]?) := by
  constructor
  · intro hi
    interval_cases i <;>
      (simp only [derive_key_iv, applyDeviceKey_key_eq, applyDeviceKey_iv_eq];
        simp [GAN_V2_KEY, GAN_V2_IV])
  · intro h6 h16
    interval_cases i <;>
      (simp only [derive_key_iv, applyDeviceKey_key_eq, applyDeviceKey_iv_eq];
        simp [GAN_V2_KEY, GAN_V2_IV])

/-- Witness for C5: a concrete identifier, one derived byte position and one
unchanged byte position of both the key and the IV. -/
theorem derive_key_iv_bytes_witness :
    ((derive_key_iv [1, 2, 3, 4, 5, 6]).1[2]? =
        some ((GAN_V2_KEY.getD 2 0 + [1, 2, 3, 4, 5, 6].getD 2 0) % 255) ∧
      (derive_key_iv [1, 2, 3, 4, 5, 6]).2[2]? =
        some ((GAN_V2_IV.getD 2 0 + [1, 2, 3, 4, 5, 6].getD 2 0) % 255)) ∧
    ((derive_key_iv [1, 2, 3, 4, 5, 6]).1[9]? = GAN_V2_KEY[9]? ∧
      (derive_key_iv [1, 2, 3, 4, 5, 6]).2[9]? = GAN_V2_IV[9]?) :=
  ⟨(derive_key_iv_bytes 1 2 3 4 5 6 2).1 (by norm_num),
   (derive_key_iv_bytes 1 2 3 4 5 6 9).2 (by norm_num) (by norm_num)⟩

/-- C7: the move-count delta of move_stream_v2 is the unsigned 8-bit
wraparound difference: for any two counter bytes it agrees with the
mathematical (current - prior) mod 256, hence is never negative, never
huge, never a failure. -/
theorem wrapSub_mod (current last : Nat) (hc : current < 256)
    (hl : last < 256) :
    (wrapSub current last : Int) = ((current : Int) - (last : Int)) % 256 ∧
      wrapSub current last < 256 := by
  unfold wrapSub
  constructor
  · omega
  · omega

/-- Witness for C7: the counter transition 250 to 4 yields delta 10. -/
theorem wrapSub_mod_witness :
    (wrapSub 4 250 : Int) = ((4 : Int) - (250 : Int)) % 256 ∧
      wrapSub 4 250 < 256 ∧ wrapSub 4 250 = 10 :=
  ⟨(wrapSub_mod 4 250 (by norm_num) (by norm_num)).1,
   (wrapSub_mod 4 250 (by norm_num) (by norm_num)).2, by decide⟩

lemma decodeMoveNums_spec (data : List Nat) (codes : Nat → Nat) :
    ∀ idxs : List Nat,
      (∀ i ∈ idxs,
        extract_bits data (12 + i * 5) 5 = some (codes i) ∧ codes i < 12) →
      decodeMoveNums data idxs =
        some (idxs.map (fun i => MOVES.getD (codes i) Move.U)) := by
  intro idxs
  induction idxs with
  | nil => intro _; rfl
  | cons i rest ih =>
    intro h
    have hi := h i (List.mem_cons_self i rest)
    have hr := ih (fun j hj => h j (List.mem_cons_of_mem _ hj))
    simp only [decodeMoveNums, hi.1, hr, List.map_cons]
    rw [if_neg (by
      have h12 : MOVES.length = 12 := rfl
      rw [h12]
      omega)]

/-- C6: for a decrypted move-message packet (4-bit message type 2 at bit 0,
8-bit counter at bit 4, 5-bit move codes at bit offsets 12 + i * 5) decoded
with a known prior counter, exactly delta moves are produced, oldest first:
the code at offset 12 + (delta - 1) * 5 comes out first and the code at
offset 12 comes out last, each mapped through the table
U, U', R, R', F, F', D, D', L, L', B, B'. -/
theorem move_message_decoding (value : List Nat) (last current : Nat)
    (codes : Nat → Nat)
    (hmt : extract_bits value 0 4 = some CUBE_MOVE_MESSAGE)
    (hcur : extract_bits value 4 8 = some current)
    (hcodes : ∀ i, i < wrapSub current last →
      extract_bits value (12 + i * 5) 5 = some (codes i) ∧ codes i < 12) :
    handle_packet value (some last) =
      some (some current,
        ((List.range (wrapSub current last)).reverse).map
          (fun i => MOVES.getD (codes i) Move.U)) := by
  have hd : decodeMoveNums value ((List.range (wrapSub current last)).reverse) =
      some (((List.range (wrapSub current last)).reverse).map
        (fun i => MOVES.getD (codes i) Move.U)) :=
    decodeMoveNums_spec value codes _
      (fun i hi => hcodes i (List.mem_range.mp (List.mem_reverse.mp hi)))
  simp only [handle_packet, hmt, hcur, hd]
  rfl

/-- Witness for C6: a concrete 3-byte move packet with counter 3 decoded
against prior counter 1 yields the two packed moves oldest-first. -/
theorem move_message_decoding_witness :
    handle_packet [0x20, 0x31, 0x00] (some 1) =
      some (some 3, [Move.U, Move.R]) := by
  have h := move_message_decoding [0x20, 0x31, 0x00] 1 3
    (fun i => if i = 0 then 2 else 0) (by decide) (by decide)
    (by
      intro i hi
      have h2 : wrapSub 3 1 = 2 := by decide
      rw [h2] at hi
      interval_cases i <;> exact ⟨by decide, by decide⟩)
  rw [h]
  decide

lemma extractBitsGo_oob (data : List Nat) :
    ∀ n bit acc : Nat, n ≠ 0 → data.length ≤ (bit + n - 1) / 8 →
      extractBitsGo data bit n acc = none := by
  intro n
  induction n with
  | zero => intro bit acc h _; exact absurd rfl h
  | succ n ih =>
    intro bit acc _ hle
    cases hn : data[bit / 8]? with
    | none => simp [extractBitsGo, hn]
    | some byte =>
      have hbit : bit / 8 < data.length := by
        by_contra hcon
        rw [List.getElem?_eq_none (by omega)] at hn
        exact absurd hn (by simp)
      have hn0 : n ≠ 0 := by
        intro h0
        subst h0
        have hb : bit + 1 - 1 = bit := by omega
        rw [hb] at hle
        omega
      simp only [extractBitsGo, hn]
      exact ih (bit + 1) _ hn0 (by
        have hb : bit + 1 + n - 1 = bit + (n + 1) - 1 := by omega
        rw [hb]
        exact hle)

lemma extract_bits_oob (data : List Nat) (start count : Nat) (h0 : count ≠ 0)
    (h : data.length ≤ (start + count - 1) / 8) :
    extract_bits data start count = none :=
  extractBitsGo_oob data count start 0 h0 h

/-- C10: the bit extractor indexes the packet with no bounds check, so for a
move message whose counter delta d satisfies 12 + 5 * d > 8 * L (L the
packet length), reading the oldest move code, at bit offset
12 + (d - 1) * 5, touches a byte index at or beyond L and the decoder
panics (modelled as none) instead of returning a partial result. -/
theorem move_decoding_oob_panic (value : List Nat) (last current : Nat)
    (hmt : extract_bits value 0 4 = some CUBE_MOVE_MESSAGE)
    (hcur : extract_bits value 4 8 = some current)
    (hpos : 1 ≤ wrapSub current last)
    (hlen : 8 * value.length < 12 + 5 * wrapSub current last) :
    handle_packet value (some last) = none := by
  obtain ⟨m, hm⟩ : ∃ m, wrapSub current last = m + 1 :=
    ⟨wrapSub current last - 1, by omega⟩
  have hrev : (List.range (m + 1)).reverse = m :: (List.range m).reverse := by
    rw [List.range_succ, List.reverse_append]
    rfl
  have hoob : extract_bits value (12 + m * 5) 5 = none := by
    apply extract_bits_oob _ _ _ (by omega)
    rw [Nat.le_div_iff_mul_le (by omega)]
    omega
  simp only [handle_packet, hmt, hcur, hm, hrev, decodeMoveNums, hoob]
  rfl

/-- Witness for C10: a 2-byte move packet with counter delta 1 needs bits
up to offset 16, beyond the 16 bits available, and decoding panics. -/
theorem move_decoding_oob_panic_witness :
    handle_packet [0x21, 0x00] (some 15) = none :=
  move_decoding_oob_panic [0x21, 0x00] 15 16 (by decide) (by decide)
    (by decide) (by decide)

namespace Triplicata

/-- Abstract key symbol (enigo::Key is an external crate type). -/
abbrev Key := Nat

/-- Embedding of enum Action of src/config.rs. -/
inductive Action where
  | press (k : Key)
  | release (k : Key)
  | click (k : Key)
deriving DecidableEq, Repr

/-- Embedding of struct Bind of src/config.rs. -/
structure Bind where
  trigger : List Move
  actions : List Action
deriving DecidableEq, Repr

/-- Embedding of struct Config of src/config.rs. -/
structure Config where
  timeout : Nat
  binds : List Bind
deriving DecidableEq, Repr

/-- Embedding of struct StateMachine of src/state_machine.rs (the broadcast
receiver is the external move source and is not part of the state; the
field current_moves embeds the field current_prefix of the source). -/
structure StateMachine where
  current_moves : List Move
  tentative_bind : Option Nat
  config : Config
deriving DecidableEq, Repr

/-- Boolean test that pre is an initial segment of target; embedding of
trigger.starts_with(&self.current_prefix) of src/state_machine.rs with the
arguments in the order (pre, target). -/
def startsWith : List Move → List Move → Bool
  | [], _ => true
  | _ :: _, [] => false
  | a :: as, b :: bs => decide (a = b) && startsWith as bs

/-- Index loop of StateMachine::get_tentative_bind: the first index at or
after idx whose trigger equals pre exactly. -/
def gtb_aux : List Bind → List Move → Nat → Option Nat
  | [], _, _ => none
  | b :: rest, pre, idx =>
    if b.trigger = pre then some idx else gtb_aux rest pre (idx + 1)

/-- Embedding of StateMachine::get_tentative_bind of src/state_machine.rs:
the lowest-index Bind whose trigger equals the current move sequence. -/
def StateMachine.get_tentative_bind (sm : StateMachine) : Option Nat :=
  gtb_aux sm.config.binds sm.current_moves 0

/-- Embedding of StateMachine::play_bind of src/state_machine.rs: the
actions sent on the output channel for the given bind index (the source
indexes self.config.binds[bind]; all call sites pass in-range indices, and
the out-of-range default contributes no actions). -/
def StateMachine.play_bind (sm : StateMachine) (bind : Nat) : List Action :=
  (sm.config.binds.getD bind ⟨[], []⟩).actions

/-- Embedding of StateMachine::reset of src/state_machine.rs: play the
tentative bind if one is held, then clear the move sequence and the
tentative bind.  The second component is the list of emitted actions. -/
def StateMachine.reset (sm : StateMachine) : StateMachine × List Action :=
  let out :=
    match sm.tentative_bind with
    | some bind => sm.play_bind bind
    | none => []
  ({ sm with current_moves := [], tentative_bind := none }, out)

/-- First half of StateMachine::push_move of src/state_machine.rs: append
the move, then either record an exact-match tentative bind, or (on no exact
match) play the previously held tentative bind, if any, and drain all but
the just-appended move.  The second component is the list of emitted
actions. -/
def StateMachine.push_stage1 (sm : StateMachine) (m : Move) :
    StateMachine × List Action :=
  let sm1 := { sm with current_moves := sm.current_moves ++ [m] }
  match sm1.get_tentative_bind with
  | some new_tentative => ({ sm1 with tentative_bind := some new_tentative }, [])
  | none =>
    let out :=
      match sm1.tentative_bind with
      | some bind => sm1.play_bind bind
      | none => []
    ({ sm1 with
        current_moves := sm1.current_moves.drop (sm1.current_moves.length - 1) },
      out)

/-- Scan loop of StateMachine::push_move: walk the binds with index i,
tracking the first index whose trigger starts with pre (next_tentative) and
whether that index is the only such one (only_one). -/
def scan_binds (pre : List Move) : List Bind → Nat → Option Nat → Bool →
    Option Nat × Bool
  | [], _, next_tentative, only_one => (next_tentative, only_one)
  | b :: rest, i, next_tentative, only_one =>
    if startsWith pre b.trigger then
      match next_tentative with
      | none => scan_binds pre rest (i + 1) (some i) true
      | some j => scan_binds pre rest (i + 1) (some j) false
    else scan_binds pre rest (i + 1) next_tentative only_one

/-- Embedding of StateMachine::push_move of src/state_machine.rs: stage 1
(append / exact match / overshoot), then the starts_with scan, then store
the scan result as the tentative bind and, when the scan found exactly one
starting trigger, invoke reset.  The second component collects the actions
emitted on the output channel, in order. -/
def StateMachine.push_move (sm : StateMachine) (m : Move) :
    StateMachine × List Action :=
  let s1 := sm.push_stage1 m
  let sc := scan_binds s1.1.current_moves s1.1.config.binds 0 none false
  let sm2 := { s1.1 with tentative_bind := sc.1 }
  match sc.1, sc.2 with
  | some _, true =>
    let r := sm2.reset
    (r.1, s1.2 ++ r.2)
  | _, _ => (sm2, s1.2)

/-- First index at or after idx whose trigger starts with pre (specification
helper for the scan loop). -/
def first_match_aux (pre : List Move) : List Bind → Nat → Option Nat
  | [], _ => none
  | b :: rest, idx =>
    if startsWith pre b.trigger then some idx
    else first_match_aux pre rest (idx + 1)

/-- Lowest index of a bind whose trigger has pre as an initial segment. -/
def first_match (binds : List Bind) (pre : List Move) : Option Nat :=
  first_match_aux pre binds 0

/-- Number of binds whose trigger has pre as an initial segment. -/
def match_count (binds : List Bind) (pre : List Move) : Nat :=
  (binds.filter (fun b => startsWith pre b.trigger)).length


lemma scan_binds_some (pre : List Move) :
    ∀ (bs : List Bind) (i j : Nat) (oo : Bool),
      scan_binds pre bs i (some j) oo =
        (some j,
          oo && decide
            ((bs.filter (fun b => startsWith pre b.trigger)).length = 0)) := by
  intro bs
  induction bs with
  | nil => intro i j oo; simp [scan_binds]
  | cons b rest ih =>
    intro i j oo
    cases hb : startsWith pre b.trigger with
    | true =>
      simp only [scan_binds, hb, if_true, ih, List.filter_cons, List.length_cons]
      simp
    | false =>
      simp only [scan_binds, hb, Bool.false_eq_true, if_false, ih,
        List.filter_cons, List.length_cons]

lemma scan_binds_none (pre : List Move) :
    ∀ (bs : List Bind) (i : Nat),
      scan_binds pre bs i none false =
        (first_match_aux pre bs i,
          decide
            ((bs.filter (fun b => startsWith pre b.trigger)).length = 1)) := by
  intro bs
  induction bs with
  | nil => intro i; simp [scan_binds, first_match_aux]
  | cons b rest ih =>
    intro i
    cases hb : startsWith pre b.trigger with
    | true =>
      simp only [scan_binds, hb, if_true, scan_binds_some, first_match_aux,
        List.filter_cons, List.length_cons, Bool.true_and]
      refine congrArg₂ Prod.mk rfl ?_
      rw [decide_eq_decide]
      omega
    | false =>
      simp only [scan_binds, hb, Bool.false_eq_true, if_false, ih,
        first_match_aux, List.filter_cons]

lemma first_match_aux_none (pre : List Move) :
    ∀ (bs : List Bind) (i : Nat), first_match_aux pre bs i = none →
      (bs.filter (fun b => startsWith pre b.trigger)).length = 0 := by
  intro bs
  induction bs with
  | nil => intro i _; rfl
  | cons b rest ih =>
    intro i h
    cases hb : startsWith pre b.trigger with
    | true => simp [first_match_aux, hb] at h
    | false =>
      simp only [first_match_aux, hb, Bool.false_eq_true, if_false] at h
      simp only [List.filter_cons, hb, Bool.false_eq_true, if_false]
      exact ih (i + 1) h


/-- C2 (amended): after every push_move, either the step ended in a reset
(empty move sequence, no tentative bind), or the tracked tentative bind is
exactly the lowest-index Bind whose trigger has the current move sequence
as an initial segment (a starts_with match, not an exact-equality match),
and none when no such bind exists.  At most one tentative bind is tracked
(a single Option field), ties among binds matching the sequence broken by
first configuration index. -/
theorem push_move_tentative (sm : StateMachine) (m : Move) :
    ((sm.push_move m).1.current_moves = [] ∧
        (sm.push_move m).1.tentative_bind = none) ∨
      (sm.push_move m).1.tentative_bind =
        first_match (sm.push_move m).1.config.binds
          (sm.push_move m).1.current_moves := by
  have hsc := scan_binds_none (sm.push_stage1 m).1.current_moves
    (sm.push_stage1 m).1.config.binds 0
  simp only [StateMachine.push_move, hsc]
  cases h1 : first_match_aux (sm.push_stage1 m).1.current_moves
      (sm.push_stage1 m).1.config.binds 0 with
  | none =>
    right
    simp [StateMachine.reset, first_match, h1]
  | some idx =>
    cases h2 : decide
        ((((sm.push_stage1 m).1.config.binds.filter
          (fun b => startsWith (sm.push_stage1 m).1.current_moves b.trigger)).length)
          = 1) with
    | false =>
      right
      simp [StateMachine.reset, first_match, h1]
    | true =>
      left
      simp [StateMachine.reset]


/-- C3 (amended): the final step of push_move fires the reset routine — and
thereby emits the actions of the scanned tentative bind — exactly when the
starts_with scan finds exactly one Bind whose trigger has the current
(possibly shrunk) move sequence as an initial segment, whether or not that
sequence is a complete trigger; in every other situation the final step
emits nothing beyond the stage-1 (overshoot) output, and when it fires the
machine returns to the idle state. -/
theorem push_move_fire (sm : StateMachine) (m : Move) :
    (sm.push_move m).2 =
      (sm.push_stage1 m).2 ++
        (if match_count (sm.push_stage1 m).1.config.binds
              (sm.push_stage1 m).1.current_moves = 1 then
          match first_match (sm.push_stage1 m).1.config.binds
              (sm.push_stage1 m).1.current_moves with
          | some idx =>
              ((sm.push_stage1 m).1.config.binds.getD idx ⟨[], []⟩).actions
          | none => []
        else []) ∧
      (match_count (sm.push_stage1 m).1.config.binds
          (sm.push_stage1 m).1.current_moves = 1 →
        (sm.push_move m).1.current_moves = [] ∧
          (sm.push_move m).1.tentative_bind = none) := by
  have hsc := scan_binds_none (sm.push_stage1 m).1.current_moves
    (sm.push_stage1 m).1.config.binds 0
  simp only [StateMachine.push_move, hsc, match_count, first_match]
  cases h1 : first_match_aux (sm.push_stage1 m).1.current_moves
      (sm.push_stage1 m).1.config.binds 0 with
  | none =>
    have h0 := first_match_aux_none _ _ _ h1
    constructor
    · rw [if_neg (by omega)]
      simp
    · intro hcnt
      omega
  | some idx =>
    cases h2 : decide
        ((((sm.push_stage1 m).1.config.binds.filter
          (fun b => startsWith (sm.push_stage1 m).1.current_moves b.trigger)).length)
          = 1) with
    | false =>
      have hne := of_decide_eq_false h2
      constructor
      · rw [if_neg hne]
        simp
      · intro hcnt
        exact absurd hcnt hne
    | true =>
      have heq := of_decide_eq_true h2
      constructor
      · rw [if_pos heq]
        simp [StateMachine.reset, StateMachine.play_bind]
      · intro _
        simp [StateMachine.reset]


/-- Idle machine with the two binds [U, R] and [U, F]. -/
def smC2 : StateMachine :=
  ⟨[], none,
    ⟨1000,
      [⟨[Move.U, Move.R], [Action.click 0]⟩,
       ⟨[Move.U, Move.F], [Action.click 1]⟩]⟩⟩

/-- Counterexample to C2 as stated: with binds [U, R] and [U, F], pushing U
from the idle state leaves move sequence [U] and tracks tentative bind 0,
although no configured trigger is exactly equal to [U] — the tracked bind
is a starts_with match, not an exact-equality match, so the tentative bind
is neither none nor a bind whose trigger equals the current sequence. -/
theorem push_move_tentative_counterexample :
    (smC2.push_move Move.U).1.current_moves = [Move.U] ∧
      (smC2.push_move Move.U).1.tentative_bind = some 0 ∧
      (∀ b ∈ smC2.config.binds, b.trigger ≠ [Move.U]) := by decide

/-- Idle machine with the single bind [R, F]. -/
def smC3 : StateMachine :=
  ⟨[], none, ⟨1000, [⟨[Move.R, Move.F], [Action.click 1]⟩]⟩⟩

/-- Counterexample to C3 as stated: with the single bind [R, F], pushing R
from the idle state leaves the move sequence [R], which is not a complete
trigger of any Bind, yet the step emits that Bind's actions (the code
fires on a unique starts_with match without requiring a full match). -/
theorem push_move_fire_counterexample :
    (∀ b ∈ smC3.config.binds, b.trigger ≠ [Move.R]) ∧
      (smC3.push_move Move.R).2 = [Action.click 1] ∧
      (smC3.push_move Move.R).2 ≠ [] := by decide

/-- Witness for the amended C3: in the counterexample scenario the scan
finds exactly one starting trigger, so the fired step returns the machine
to the idle state. -/
theorem push_move_fire_witness :
    (smC3.push_move Move.R).1.current_moves = [] ∧
      (smC3.push_move Move.R).1.tentative_bind = none :=
  (push_move_fire smC3 Move.R).2 (by decide)

/-- Idle machine with the two binds [U] and [R, F] of the C4 scenario. -/
def smC4 : StateMachine :=
  ⟨[], none,
    ⟨1000,
      [⟨[Move.U], [Action.click 0]⟩,
       ⟨[Move.R, Move.F], [Action.click 1]⟩]⟩⟩

/-- Counterexample to C4 as stated: with binds [U] and [R, F], pushing U and
then R does not emit only the [U] bind's actions with the machine left
accumulating [R]: the [R, F] bind's actions are also emitted and the
machine ends idle. -/
theorem push_u_then_r_counterexample :
    ¬ ((smC4.push_move Move.U).2 ++
          ((smC4.push_move Move.U).1.push_move Move.R).2 =
            [Action.click 0] ∧
        ((smC4.push_move Move.U).1.push_move Move.R).1.current_moves =
          [Move.R]) := by decide

/-- C4 (amended): with binds [U] and [R, F], pushing U fires the [U] bind's
actions at once (its trigger is the unique starts_with match), and pushing R
then fires the [R, F] bind's actions at once as well ([R] uniquely starts
[R, F], and the code fires without waiting for the full trigger); afterwards
the machine is idle with an empty move sequence and no tentative bind, not
accumulating [R]. -/
theorem push_u_then_r_emissions :
    (smC4.push_move Move.U).2 = [Action.click 0] ∧
      ((smC4.push_move Move.U).1.push_move Move.R).2 = [Action.click 1] ∧
      ((smC4.push_move Move.U).1.push_move Move.R).1.current_moves = [] ∧
      ((smC4.push_move Move.U).1.push_move Move.R).1.tentative_bind =
        none := by decide

end Triplicata
